import Mathlib

/-!
# Verification of the pitch-frame-to-note segmentation engine of s-tune

Shallow embedding of `src/lib/note-detection.ts` (the FrameFilter /
TemporalClusterer / NoteSynthesizer / ScaleQuantizer pipeline) and proofs of
the specified properties.

Modelling conventions:
* JS `number` values appearing in the pipeline are modelled as `ℚ`.  The only
  places where non-finite values (`NaN`, `±Infinity`) are behaviourally
  relevant to the specification are the `f0` field of a `PitchFrame` and the
  `midi` argument of `snapMidiToScale`; these are modelled by the inductive
  type `JsNum` with explicit non-finite constructors.
* `Math.log2` has no exact rational counterpart; the pipeline is therefore
  parametrised by a function `log2 : ℚ → ℚ` standing for it.  No theorem below
  depends on which function is supplied, except that concrete evaluations use
  `demoLog2`, which provably agrees with the real base-2 logarithm on the
  frequency ratios occurring in those evaluations (see `demoLog2_agrees`).
* `Math.sqrt(v) > c` (the cluster-spread test) is embedded as the equivalent
  rational comparison `c < 0 ∨ v > c·c`, which for `v ≥ 0` is propositionally
  equal to the real statement; this is proved in `stddevGT_iff_sqrt`.
* `crypto.randomUUID()` (fresh note identifiers) is modelled by an explicit
  identifier supply `ids : ℕ → String` indexed by the number of notes emitted
  so far; two runs of the program may use different supplies.
* `Array.prototype.sort` with comparator `(a, b) => a.time - b.time` is the
  stable ascending sort by `time`; it is modelled by `List.insertionSort`,
  which is stable for the corresponding total preorder.
-/

attribute [local semireducible] Rat.add Rat.mul Rat.sub Rat.inv

namespace STune

/-- A JavaScript `number` in the positions where non-finiteness matters:
either a finite value (modelled exactly as a rational) or one of the
non-finite values `NaN`, `Infinity`, `-Infinity`. -/
inductive JsNum where
  | fin (q : ℚ)
  | nan
  | posInf
  | negInf
deriving DecidableEq

/-- JS `Number.isFinite`. -/
def JsNum.isFinite : JsNum → Bool
  | .fin _ => true
  | _ => false

/-- `PitchFrame` from `pitch-model.ts`: `time` (seconds), `f0` (Hz; `none`
models `null` = unvoiced, `some` a JS number that may be non-finite),
`confidence` (0..1). -/
structure PitchFrame where
  time : ℚ
  f0 : Option JsNum
  confidence : ℚ
deriving DecidableEq

/-- `DetectedNote` from `pitch-model.ts`.  `midi` is produced by
`Math.round`, hence an integer. -/
structure DetectedNote where
  id : String
  startTime : ℚ
  endTime : ℚ
  midi : ℤ
  confidence : ℚ
deriving DecidableEq

/-- The id-independent payload of a note: `(startTime, endTime, midi,
confidence)`. -/
def DetectedNote.data (n : DetectedNote) : ℚ × ℚ × ℤ × ℚ :=
  (n.startTime, n.endTime, n.midi, n.confidence)

/-- `NoteDetectionConfig` from `note-detection.ts`.  All fields are JS
numbers (`minFramesPerNote` included: the source compares `cl.length <
cfg.minFramesPerNote` on numbers). -/
structure NoteDetectionConfig where
  minFrameConfidence : ℚ
  maxGapSec : ℚ
  maxJumpSemitones : ℚ
  maxStdDevSemitones : ℚ
  minNoteSec : ℚ
  minFramesPerNote : ℚ
deriving DecidableEq

/-- `NOTE_DETECTION_DEFAULTS` from the source. -/
def NOTE_DETECTION_DEFAULTS : NoteDetectionConfig :=
  { minFrameConfidence := 3/10
    maxGapSec := 5/100
    maxJumpSemitones := 12/10
    maxStdDevSemitones := 6/10
    minNoteSec := 6/100
    minFramesPerNote := 3 }

/-- `Partial<NoteDetectionConfig>`: every field optionally overridden. -/
structure PartialNoteDetectionConfig where
  minFrameConfidence : Option ℚ
  maxGapSec : Option ℚ
  maxJumpSemitones : Option ℚ
  maxStdDevSemitones : Option ℚ
  minNoteSec : Option ℚ
  minFramesPerNote : Option ℚ
deriving DecidableEq

/-- The empty partial configuration `{}` (all fields absent). -/
def emptyPartialConfig : PartialNoteDetectionConfig :=
  { minFrameConfidence := none
    maxGapSec := none
    maxJumpSemitones := none
    maxStdDevSemitones := none
    minNoteSec := none
    minFramesPerNote := none }

/-- The spread `{ ...defaults, ...overrides }` merging a partial
configuration over a full one. -/
def mergeConfig (d : NoteDetectionConfig) (p : PartialNoteDetectionConfig) :
    NoteDetectionConfig :=
  { minFrameConfidence := p.minFrameConfidence.getD d.minFrameConfidence
    maxGapSec := p.maxGapSec.getD d.maxGapSec
    maxJumpSemitones := p.maxJumpSemitones.getD d.maxJumpSemitones
    maxStdDevSemitones := p.maxStdDevSemitones.getD d.maxStdDevSemitones
    minNoteSec := p.minNoteSec.getD d.minNoteSec
    minFramesPerNote := p.minFramesPerNote.getD d.minFramesPerNote }

/-- JS `Math.round`: round half toward positive infinity, `⌊x + 1/2⌋`. -/
def jsRound (q : ℚ) : ℤ := ⌊q + 1/2⌋

/-- `median` from the source: sort ascending, take the middle element (odd
length) or the mean of the two middle elements (even length).  The source
returns `NaN` on the empty list; every call site guards non-emptiness, so the
empty case is mapped to `0` here. -/
def median (values : List ℚ) : ℚ :=
  if values.length = 0 then 0
  else
    let xs := List.insertionSort (fun a b => a ≤ b) values
    let mid := values.length / 2
    if values.length % 2 = 1 then xs.getD mid 0
    else (xs.getD (mid - 1) 0 + xs.getD mid 0) / 2

/-- `mean` from the source (again `NaN`-on-empty is mapped to `0`; all call
sites guard non-emptiness). -/
def mean (values : List ℚ) : ℚ :=
  if values.length = 0 then 0 else values.sum / values.length

/-- The square of the source's `stddev`: the sample variance with the `n − 1`
divisor, `0` for lists with at most one element.  The source computes
`Math.sqrt` of this value; since only the comparison `stddev > threshold`
is ever used, the pipeline works with the square (see `stddevGT`). -/
def stddevSq (values : List ℚ) : ℚ :=
  if values.length ≤ 1 then 0
  else
    let m := mean values
    (values.map (fun x => (x - m) * (x - m))).sum / ((values.length : ℚ) - 1)

/-- The source's comparison `stddev(values) > c`, i.e.
`Math.sqrt(stddevSq values) > c`, expressed without square roots:
for `v ≥ 0` (always the case for a variance), `√v > c ↔ c < 0 ∨ v > c·c`.
This equivalence is proved in `stddevGT_iff_sqrt`. -/
def stddevGT (values : List ℚ) (c : ℚ) : Bool :=
  decide (c < 0) || decide (stddevSq values > c * c)

/-- The consecutive differences `times[i] - times[i-1]` (the loop in
`inferHopSec`). -/
def consecDeltas : List ℚ → List ℚ
  | a :: b :: rest => (b - a) :: consecDeltas (b :: rest)
  | _ => []

/-- `inferHopSec` from the source: `0.01` when there are at most two
timestamps; otherwise the median of the positive consecutive deltas, or
`0.01` if there are none.  (The source also drops non-finite deltas, which
cannot arise over `ℚ`.) -/
def inferHopSec (times : List ℚ) : ℚ :=
  if times.length ≤ 2 then 1/100
  else
    let deltas := (consecDeltas times).filter (fun d => 0 < d)
    if deltas.isEmpty then 1/100 else median deltas

/-- `hzToMidiFloat` from the source: `69 + 12 * Math.log2(hz / 440)`, with
`log2` the abstracted `Math.log2`. -/
def hzToMidiFloat (log2 : ℚ → ℚ) (hz : ℚ) : ℚ := 69 + 12 * log2 (hz / 440)

/-- The internal `VFrame` record of `detectNotesFromPitch`. -/
structure VFrame where
  time : ℚ
  midi : ℚ
  confidence : ℚ
deriving DecidableEq

/-- The filter predicate of the voiced-frame stage:
`f.f0 != null && Number.isFinite(f.f0) && f.confidence >= cfg.minFrameConfidence`. -/
def keepFrame (cfg : NoteDetectionConfig) (f : PitchFrame) : Bool :=
  match f.f0 with
  | some n => n.isFinite && decide (f.confidence ≥ cfg.minFrameConfidence)
  | none => false

/-- The frequency of a kept frame (the `f.f0 as number` cast; the default `0`
is never reached because `keepFrame` guarantees a finite value). -/
def frameHz (f : PitchFrame) : ℚ :=
  match f.f0 with
  | some (.fin q) => q
  | _ => 0

/-- The voiced-frame stage (FrameFilter) of `detectNotesFromPitch`: filter,
convert to semitones, and sort ascending by `time` (stable, as JS
`Array.prototype.sort` is). -/
def voicedFrames (log2 : ℚ → ℚ) (cfg : NoteDetectionConfig)
    (frames : List PitchFrame) : List VFrame :=
  List.insertionSort (fun a b => a.time ≤ b.time)
    ((frames.filter (keepFrame cfg)).map (fun f =>
      { time := f.time
        midi := hzToMidiFloat log2 (frameHz f)
        confidence := f.confidence }))

/-- One iteration of the clustering loop of `detectNotesFromPitch`, acting on
the state `(clusters so far, current cluster)`.  (The source also closes the
cluster on a non-finite gap, which cannot arise over `ℚ`.) -/
def clusterStep (cfg : NoteDetectionConfig)
    (st : List (List VFrame) × List VFrame) (f : VFrame) :
    List (List VFrame) × List VFrame :=
  match st with
  | (clusters, []) => (clusters, [f])
  | (clusters, c :: cs) =>
    let prev := (c :: cs).getLast (List.cons_ne_nil c cs)
    if f.time - prev.time > cfg.maxGapSec then (clusters ++ [c :: cs], [f])
    else if |f.midi - prev.midi| > cfg.maxJumpSemitones then
      (clusters ++ [c :: cs], [f])
    else if stddevGT (((c :: cs) ++ [f]).map VFrame.midi) cfg.maxStdDevSemitones then
      (clusters ++ [c :: cs], [f])
    else (clusters, (c :: cs) ++ [f])

/-- The clustering pass of `detectNotesFromPitch`: fold `clusterStep` over the
voiced frames and flush any open cluster at the end. -/
def buildClusters (cfg : NoteDetectionConfig) (voiced : List VFrame) :
    List (List VFrame) :=
  let st := voiced.foldl (clusterStep cfg) ([], [])
  if st.2.isEmpty then st.1 else st.1 ++ [st.2]

/-- One iteration of the note-synthesis loop.  The empty-cluster case is
unreachable (`buildClusters` never emits an empty cluster, see
`buildClusters_ne_nil`); the source would fault on `cl[0]!` there. -/
def synthStep (cfg : NoteDetectionConfig) (hopSec : ℚ) (ids : ℕ → String)
    (notes : List DetectedNote) (cl : List VFrame) : List DetectedNote :=
  match cl with
  | [] => notes
  | c0 :: cs =>
    if ((c0 :: cs).length : ℚ) < cfg.minFramesPerNote then notes
    else
      let t0 := c0.time
      let t1 := ((c0 :: cs).getLast (List.cons_ne_nil c0 cs)).time + hopSec
      if t1 - t0 < cfg.minNoteSec then notes
      else
        notes ++ [{ id := ids notes.length
                    startTime := t0
                    endTime := t1
                    midi := jsRound (median ((c0 :: cs).map VFrame.midi))
                    confidence :=
                      max 0 (min 1 (mean ((c0 :: cs).map VFrame.confidence))) }]

/-- The note-synthesis loop of `detectNotesFromPitch`. -/
def synthNotes (cfg : NoteDetectionConfig) (hopSec : ℚ) (ids : ℕ → String)
    (clusters : List (List VFrame)) : List DetectedNote :=
  clusters.foldl (synthStep cfg hopSec ids) []

/-- The body of `detectNotesFromPitch` after the configuration merge. -/
def detectWithConfig (log2 : ℚ → ℚ) (cfg : NoteDetectionConfig)
    (frames : List PitchFrame) (ids : ℕ → String) : List DetectedNote :=
  let voiced := voicedFrames log2 cfg frames
  if voiced.isEmpty then []
  else
    let hopSec := inferHopSec (voiced.map VFrame.time)
    synthNotes cfg hopSec ids (buildClusters cfg voiced)

/-- `detectNotesFromPitch` from the source.  `config` models the optional
`Partial<NoteDetectionConfig>` argument (`config ?? {}` merged over the
defaults); `ids` models the ambient fresh-identifier generator
(`crypto.randomUUID()`). -/
def detectNotesFromPitch (log2 : ℚ → ℚ) (frames : List PitchFrame)
    (config : Option PartialNoteDetectionConfig) (ids : ℕ → String) :
    List DetectedNote :=
  detectWithConfig log2
    (mergeConfig NOTE_DETECTION_DEFAULTS (config.getD emptyPartialConfig))
    frames ids

/-- `Key` from the source.  `rootMidi` is integral for every key the source
constructs (`makeKey`), and the scale steps are integral pitch classes. -/
structure Key where
  rootMidi : ℤ
  scaleSteps : List ℤ
deriving DecidableEq

/-- The scale tables `SCALES` from the source. -/
inductive ScaleName where
  | major
  | minor
deriving DecidableEq

/-- `SCALES[scale]`. -/
def SCALES : ScaleName → List ℤ
  | .major => [0, 2, 4, 5, 7, 9, 11]
  | .minor => [0, 2, 3, 5, 7, 8, 10]

/-- JS `((x % 12) + 12) % 12` on integers (`%` is the truncated remainder). -/
def jsMod12 (x : ℤ) : ℤ := (x.tmod 12 + 12).tmod 12

/-- `makeKey` from the source (the source defaults `rootOctaveMidi` to 60). -/
def makeKey (rootPitchClass : ℤ) (scale : ScaleName) (rootOctaveMidi : ℤ) : Key :=
  { rootMidi := rootOctaveMidi + jsMod12 rootPitchClass
    scaleSteps := SCALES scale }

/-- `inScale` from the source. -/
def inScale (midi : ℤ) (key : Key) : Bool :=
  key.scaleSteps.contains (jsMod12 (midi - key.rootMidi))

/-- The radius-search loop of `snapMidiToScale`: for `d = 1..6`, test `m - d`
then `m + d`, stopping at the first scale tone (the `break`). -/
def snapSearch (m : ℤ) (key : Key) : Option ℤ :=
  ([1, 2, 3, 4, 5, 6] : List ℤ).findSome? (fun d =>
    if inScale (m - d) key then some (m - d)
    else if inScale (m + d) key then some (m + d)
    else none)

/-- `snapMidiToScale` from the source: non-finite input is returned
unchanged; otherwise the input is rounded, returned as-is if already in
scale, and otherwise replaced by the first tone found by `snapSearch`
(falling back to the rounded input when the search fails). -/
def snapMidiToScale (midi : JsNum) (key : Key) : JsNum :=
  match midi with
  | .fin q =>
    let m := jsRound q
    if inScale m key then .fin (m : ℚ)
    else .fin (((snapSearch m key).getD m : ℤ) : ℚ)
  | x => x

/-- The TemporalClusterer exactly as narrated in specification §4.2: a direct
recursion over the remaining frames carrying the current (possibly empty)
cluster.  A gap or jump violation closes the current cluster (if non-empty)
and restarts from the offending frame; otherwise the frame is tentatively
appended and the append is rejected if the sample standard deviation of the
tentative cluster exceeds the threshold; at end of input any open cluster is
closed. -/
def specClusterize (cfg : NoteDetectionConfig) :
    List VFrame → List VFrame → List (List VFrame)
  | cur, [] => if cur.isEmpty then [] else [cur]
  | [], f :: rest => specClusterize cfg [f] rest
  | c :: cs, f :: rest =>
    let prev := (c :: cs).getLast (List.cons_ne_nil c cs)
    if f.time - prev.time > cfg.maxGapSec ∨ |f.midi - prev.midi| > cfg.maxJumpSemitones then
      (c :: cs) :: specClusterize cfg [f] rest
    else
      let tentative := (c :: cs) ++ [f]
      if stddevGT (tentative.map VFrame.midi) cfg.maxStdDevSemitones then
        (c :: cs) :: specClusterize cfg [f] rest
      else specClusterize cfg tentative rest

/-- The start time of a note synthesized from a cluster: the first frame's
time (`0` placeholder on the unreachable empty cluster). -/
def clusterStart (cl : List VFrame) : ℚ := ((cl.head?.map VFrame.time).getD 0)

/-- The end time of a note synthesized from a cluster: the last frame's time
plus the inferred hop. -/
def clusterEnd (hopSec : ℚ) (cl : List VFrame) : ℚ :=
  ((cl.getLast?.map VFrame.time).getD 0) + hopSec

/-- Whether a cluster survives the note-synthesis filters: at least
`minFramesPerNote` frames and duration at least `minNoteSec`. -/
def survives (cfg : NoteDetectionConfig) (hopSec : ℚ) : List VFrame → Bool
  | [] => false
  | c0 :: cs =>
    !decide (((c0 :: cs).length : ℚ) < cfg.minFramesPerNote) &&
    !decide (clusterEnd hopSec (c0 :: cs) - c0.time < cfg.minNoteSec)

/-- The id-independent payload of the note synthesized from a cluster. -/
def clusterData (hopSec : ℚ) (cl : List VFrame) : ℚ × ℚ × ℤ × ℚ :=
  (clusterStart cl, clusterEnd hopSec cl,
   jsRound (median (cl.map VFrame.midi)),
   max 0 (min 1 (mean (cl.map VFrame.confidence))))

/-- A concrete stand-in for `Math.log2` used in closed evaluations.  It
agrees with the real base-2 logarithm on the ratios `1` and `2`, the only
arguments at which the evaluations below apply it (`demoLog2_agrees`). -/
def demoLog2 (q : ℚ) : ℚ := if q = 2 then 1 else 0

/-- An identifier supply, standing for one run of `crypto.randomUUID()`. -/
def idsA : ℕ → String := fun n => "a-" ++ toString n

/-- A different identifier supply, standing for another run. -/
def idsB : ℕ → String := fun n => "b-" ++ toString n

/-- Three voiced frames of a steady 440 Hz tone at a 0.03 s hop: under the
default configuration they form exactly one note. -/
def framesA : List PitchFrame :=
  [⟨0, some (.fin 440), 9/10⟩, ⟨3/100, some (.fin 440), 9/10⟩,
   ⟨6/100, some (.fin 440), 9/10⟩]

/-- Two frames with the same timestamp an octave apart (440 Hz and 880 Hz). -/
def framesC2 : List PitchFrame :=
  [⟨0, some (.fin 440), 1⟩, ⟨0, some (.fin 880), 1⟩]

/-- A permissive configuration: every frame kept, one-frame notes allowed,
no duration floor, and a semitone-jump threshold that splits octave jumps. -/
def permissiveConfig : PartialNoteDetectionConfig :=
  { minFrameConfidence := some 0
    maxGapSec := some 1
    maxJumpSemitones := some (1/2)
    maxStdDevSemitones := some 1
    minNoteSec := some 0
    minFramesPerNote := some 1 }

/-- Seven frames of a steady 440 Hz tone at a 0.04 s hop whose middle frame
has confidence 0.5 while the others have 0.9. -/
def framesC3 : List PitchFrame :=
  [⟨0, some (.fin 440), 9/10⟩, ⟨4/100, some (.fin 440), 9/10⟩,
   ⟨8/100, some (.fin 440), 9/10⟩, ⟨12/100, some (.fin 440), 5/10⟩,
   ⟨16/100, some (.fin 440), 9/10⟩, ⟨20/100, some (.fin 440), 9/10⟩,
   ⟨24/100, some (.fin 440), 9/10⟩]

/-- A configuration override raising only `minFrameConfidence` to 0.7. -/
def pHigh : PartialNoteDetectionConfig :=
  { emptyPartialConfig with minFrameConfidence := some (7/10) }

/-- A configuration override with a negative `minNoteSec` threshold. -/
def pNeg : PartialNoteDetectionConfig :=
  { emptyPartialConfig with minNoteSec := some (-1) }

/-- Frames none of which carries a finite frequency (`NaN`, `null`,
`Infinity`). -/
def framesNF : List PitchFrame :=
  [⟨0, some .nan, 1⟩, ⟨1, none, 1⟩, ⟨2, some .posInf, 1⟩]

/-! ## Basic numeric lemmas -/

theorem jsRound_intCast (k : ℤ) : jsRound (k : ℚ) = k := by
  unfold jsRound
  rw [add_comm, Int.floor_add_int]
  norm_num

theorem stddevSq_nonneg (values : List ℚ) : 0 ≤ stddevSq values := by
  unfold stddevSq
  split
  · exact le_refl 0
  · rename_i h
    apply div_nonneg
    · apply List.sum_nonneg
      intro x hx
      obtain ⟨y, _, rfl⟩ := List.mem_map.mp hx
      exact mul_self_nonneg _
    · have : 2 ≤ values.length := by omega
      have : (2 : ℚ) ≤ (values.length : ℚ) := by exact_mod_cast this
      linarith

theorem sqrtGT_iff (v c : ℚ) :
    ((c : ℝ) < Real.sqrt ((v : ℚ) : ℝ)) ↔ (c < 0 ∨ c * c < v) := by
  by_cases hc : c < 0
  · constructor
    · intro _
      exact Or.inl hc
    · intro _
      calc (c : ℝ) < 0 := by exact_mod_cast hc
        _ ≤ Real.sqrt ((v : ℚ) : ℝ) := Real.sqrt_nonneg _
  · push_neg at hc
    have hc' : (0 : ℝ) ≤ (c : ℚ) := by exact_mod_cast hc
    rw [Real.lt_sqrt hc']
    constructor
    · intro h
      refine Or.inr ?_
      have : ((c * c : ℚ) : ℝ) < ((v : ℚ) : ℝ) := by
        push_cast
        nlinarith [h]
      exact_mod_cast this
    · intro h
      rcases h with h | h
      · exact absurd h (not_lt.mpr hc)
      · have : ((c * c : ℚ) : ℝ) < ((v : ℚ) : ℝ) := by exact_mod_cast h
        push_cast at this
        nlinarith [this]

theorem stddevGT_iff_sqrt (values : List ℚ) (c : ℚ) :
    stddevGT values c = true ↔
      (c : ℝ) < Real.sqrt ((stddevSq values : ℚ) : ℝ) := by
  rw [sqrtGT_iff]
  unfold stddevGT
  simp [gt_iff_lt]

theorem demoLog2_agrees :
    ((demoLog2 1 : ℚ) : ℝ) = Real.logb 2 ((1 : ℚ) : ℝ)
    ∧ ((demoLog2 2 : ℚ) : ℝ) = Real.logb 2 ((2 : ℚ) : ℝ) := by
  constructor
  · simp [demoLog2, Real.logb_one]
  · norm_num [demoLog2]

theorem getD_mem_of_lt {l : List ℚ} {i : ℕ} (h : i < l.length) :
    l.getD i 0 ∈ l := by
  rw [List.getD_eq_getElem?_getD, List.getElem?_eq_getElem h]
  exact List.getElem_mem h

theorem median_pos (values : List ℚ) (hne : values ≠ [])
    (hpos : ∀ x ∈ values, 0 < x) : 0 < median values := by
  unfold median
  have hlen : 0 < values.length := List.length_pos.mpr hne
  have hlen0 : ¬ values.length = 0 := by omega
  simp only [hlen0, if_false]
  set xs := List.insertionSort (fun a b => a ≤ b) values with hxs
  have hperm : xs.Perm values := List.perm_insertionSort _ values
  have hxlen : xs.length = values.length := hperm.length_eq
  have hxpos : ∀ x ∈ xs, 0 < x := fun x hx => hpos x (hperm.mem_iff.mp hx)
  have hmid : values.length / 2 < xs.length := by
    rw [hxlen]; exact Nat.div_lt_self hlen (by omega)
  have hmid1 : values.length / 2 - 1 < xs.length := by omega
  split
  · exact hxpos _ (getD_mem_of_lt hmid)
  · have h1 := hxpos _ (getD_mem_of_lt hmid1)
    have h2 := hxpos _ (getD_mem_of_lt hmid)
    positivity

theorem inferHopSec_pos (times : List ℚ) : 0 < inferHopSec times := by
  unfold inferHopSec
  split
  · norm_num
  · dsimp only
    split
    · norm_num
    · rename_i hne
      apply median_pos
      · intro hcon
        rw [hcon] at hne
        simp at hne
      · intro x hx
        have := List.of_mem_filter hx
        simpa using this

theorem consecDeltas_eq_zipWith (l : List ℚ) :
    consecDeltas l = List.zipWith (fun a b => b - a) l l.tail := by
  induction l with
  | nil => rfl
  | cons a l ih =>
    cases l with
    | nil => rfl
    | cons b rest =>
      simp only [consecDeltas, List.tail_cons, List.zipWith_cons_cons]
      rw [ih]
      rfl

/-! ## Clustering infrastructure -/

/-- The combined condition under which the clustering loop closes the current
cluster `c :: cs` instead of committing the append of `f`: gap violation,
jump violation, or spread violation of the tentative cluster. -/
def splitCond (cfg : NoteDetectionConfig) (c : VFrame) (cs : List VFrame)
    (f : VFrame) : Bool :=
  let prev := (c :: cs).getLast (List.cons_ne_nil c cs)
  decide (f.time - prev.time > cfg.maxGapSec) ||
  decide (|f.midi - prev.midi| > cfg.maxJumpSemitones) ||
  stddevGT (((c :: cs) ++ [f]).map VFrame.midi) cfg.maxStdDevSemitones

theorem clusterStep_cons (cfg : NoteDetectionConfig) (acc : List (List VFrame))
    (c : VFrame) (cs : List VFrame) (f : VFrame) :
    clusterStep cfg (acc, c :: cs) f =
      if splitCond cfg c cs f then (acc ++ [c :: cs], [f])
      else (acc, (c :: cs) ++ [f]) := by
  simp only [clusterStep, splitCond]
  by_cases h1 : f.time - ((c :: cs).getLast (List.cons_ne_nil c cs)).time > cfg.maxGapSec
  · simp [h1]
  · by_cases h2 :
      |f.midi - ((c :: cs).getLast (List.cons_ne_nil c cs)).midi| > cfg.maxJumpSemitones
    · simp [h1, h2]
    · by_cases h3 : stddevGT (((c :: cs) ++ [f]).map VFrame.midi) cfg.maxStdDevSemitones
      · simp [h1, h2, h3]
      · simp [h1, h2, h3]

theorem specClusterize_cons (cfg : NoteDetectionConfig) (c : VFrame)
    (cs : List VFrame) (f : VFrame) (rest : List VFrame) :
    specClusterize cfg (c :: cs) (f :: rest) =
      if splitCond cfg c cs f then (c :: cs) :: specClusterize cfg [f] rest
      else specClusterize cfg ((c :: cs) ++ [f]) rest := by
  simp only [specClusterize, splitCond]
  by_cases h1 : f.time - ((c :: cs).getLast (List.cons_ne_nil c cs)).time > cfg.maxGapSec
  · simp [h1]
  · by_cases h2 :
      |f.midi - ((c :: cs).getLast (List.cons_ne_nil c cs)).midi| > cfg.maxJumpSemitones
    · simp [h1, h2]
    · by_cases h3 : stddevGT (((c :: cs) ++ [f]).map VFrame.midi) cfg.maxStdDevSemitones
      · simp [h1, h2, h3]
      · simp [h1, h2, h3]

theorem foldl_clusterStep_spec (cfg : NoteDetectionConfig) :
    ∀ (rest : List VFrame) (acc : List (List VFrame)) (cur : List VFrame),
      (if (rest.foldl (clusterStep cfg) (acc, cur)).2.isEmpty
        then (rest.foldl (clusterStep cfg) (acc, cur)).1
        else (rest.foldl (clusterStep cfg) (acc, cur)).1
          ++ [(rest.foldl (clusterStep cfg) (acc, cur)).2])
        = acc ++ specClusterize cfg cur rest := by
  intro rest
  induction rest with
  | nil =>
    intro acc cur
    cases cur with
    | nil => simp [specClusterize]
    | cons c cs => simp [specClusterize]
  | cons f rest ih =>
    intro acc cur
    cases cur with
    | nil =>
      simp only [List.foldl_cons, clusterStep, specClusterize]
      exact ih acc [f]
    | cons c cs =>
      simp only [List.foldl_cons, clusterStep_cons, specClusterize_cons]
      by_cases hs : splitCond cfg c cs f
      · simp only [if_pos hs]
        rw [ih (acc ++ [c :: cs]) [f]]
        simp
      · simp only [if_neg hs]
        exact ih acc ((c :: cs) ++ [f])

theorem buildClusters_eq_spec (cfg : NoteDetectionConfig) (voiced : List VFrame) :
    buildClusters cfg voiced = specClusterize cfg [] voiced := by
  have h := foldl_clusterStep_spec cfg voiced [] []
  simpa [buildClusters] using h

theorem foldl_clusterStep_inv (cfg : NoteDetectionConfig) :
    ∀ (l : List VFrame) (acc : List (List VFrame)) (cur : List VFrame),
      ((l.foldl (clusterStep cfg) (acc, cur)).1.flatten
          ++ (l.foldl (clusterStep cfg) (acc, cur)).2 = acc.flatten ++ cur ++ l)
      ∧ ((∀ cl ∈ acc, cl ≠ []) →
          ∀ cl ∈ (l.foldl (clusterStep cfg) (acc, cur)).1, cl ≠ [])
      ∧ ((l.foldl (clusterStep cfg) (acc, cur)).2 = [] → cur = [] ∧ l = []) := by
  intro l
  induction l with
  | nil =>
    intro acc cur
    exact ⟨by simp, fun h => h, fun h => ⟨h, rfl⟩⟩
  | cons f l ih =>
    intro acc cur
    cases cur with
    | nil =>
      simp only [List.foldl_cons, clusterStep]
      obtain ⟨ih1, ih2, ih3⟩ := ih acc [f]
      refine ⟨?_, ih2, ?_⟩
      · rw [ih1]; simp
      · intro h
        exact absurd (ih3 h).1 (by simp)
    | cons c cs =>
      simp only [List.foldl_cons, clusterStep_cons]
      by_cases hs : splitCond cfg c cs f
      · rw [if_pos hs]
        obtain ⟨ih1, ih2, ih3⟩ := ih (acc ++ [c :: cs]) [f]
        refine ⟨?_, ?_, ?_⟩
        · rw [ih1]; simp
        · intro h
          apply ih2
          intro cl hcl
          rcases List.mem_append.mp hcl with h2 | h2
          · exact h cl h2
          · simp only [List.mem_singleton] at h2
            subst h2
            simp
        · intro h
          exact absurd (ih3 h).1 (by simp)
      · rw [if_neg hs]
        obtain ⟨ih1, ih2, ih3⟩ := ih acc ((c :: cs) ++ [f])
        refine ⟨?_, ih2, ?_⟩
        · rw [ih1]; simp
        · intro h
          exact absurd (ih3 h).1 (by simp)

theorem buildClusters_flatten (cfg : NoteDetectionConfig) (voiced : List VFrame) :
    (buildClusters cfg voiced).flatten = voiced := by
  obtain ⟨h1, _, h3⟩ := foldl_clusterStep_inv cfg voiced [] []
  unfold buildClusters
  by_cases he : (voiced.foldl (clusterStep cfg) ([], [])).2.isEmpty
  · simp only [he, if_true]
    rw [List.isEmpty_iff] at he
    rw [he] at h1
    simpa using h1
  · simp only [he, if_false]
    simpa using h1

theorem buildClusters_ne_nil (cfg : NoteDetectionConfig) (voiced : List VFrame) :
    ∀ cl ∈ buildClusters cfg voiced, cl ≠ [] := by
  obtain ⟨_, h2, _⟩ := foldl_clusterStep_inv cfg voiced [] []
  unfold buildClusters
  by_cases he : (voiced.foldl (clusterStep cfg) ([], [])).2.isEmpty
  · simp only [he, if_true]
    exact h2 (by simp)
  · simp only [he, if_false]
    intro cl hcl
    rcases List.mem_append.mp hcl with h | h
    · exact h2 (by simp) cl h
    · simp only [List.mem_singleton] at h
      subst h
      rw [List.isEmpty_iff] at he
      exact he

theorem buildClusters_pairwise {R : VFrame → VFrame → Prop}
    (cfg : NoteDetectionConfig) (voiced : List VFrame)
    (h : voiced.Pairwise R) :
    (∀ cl ∈ buildClusters cfg voiced, cl.Pairwise R) ∧
      (buildClusters cfg voiced).Pairwise
        (fun c d => ∀ x ∈ c, ∀ y ∈ d, R x y) := by
  have hf := buildClusters_flatten cfg voiced
  rw [← hf] at h
  exact List.pairwise_flatten.mp h

/-! ## Note-synthesis infrastructure -/

theorem clusterStart_cons (c0 : VFrame) (cs : List VFrame) :
    clusterStart (c0 :: cs) = c0.time := by
  simp [clusterStart]

theorem clusterEnd_cons (hopSec : ℚ) (c0 : VFrame) (cs : List VFrame) :
    clusterEnd hopSec (c0 :: cs)
      = ((c0 :: cs).getLast (List.cons_ne_nil c0 cs)).time + hopSec := by
  unfold clusterEnd
  rw [List.getLast?_eq_getLast (c0 :: cs) (List.cons_ne_nil c0 cs)]
  rfl

theorem foldl_synthStep_data (cfg : NoteDetectionConfig) (hopSec : ℚ)
    (ids : ℕ → String) :
    ∀ (cls : List (List VFrame)) (acc : List DetectedNote),
      (cls.foldl (synthStep cfg hopSec ids) acc).map DetectedNote.data
        = acc.map DetectedNote.data
          ++ (cls.filter (survives cfg hopSec)).map (clusterData hopSec) := by
  intro cls
  induction cls with
  | nil =>
    intro acc
    simp
  | cons cl cls ih =>
    intro acc
    simp only [List.foldl_cons]
    cases cl with
    | nil =>
      have hstep : synthStep cfg hopSec ids acc [] = acc := rfl
      have hsurv : survives cfg hopSec ([] : List VFrame) = false := rfl
      rw [hstep, ih acc, List.filter_cons, hsurv]
      simp
    | cons c0 cs =>
      by_cases hlen : ((c0 :: cs).length : ℚ) < cfg.minFramesPerNote
      · have hstep : synthStep cfg hopSec ids acc (c0 :: cs) = acc := by
          simp only [synthStep]
          rw [if_pos hlen]
        have hsurv : survives cfg hopSec (c0 :: cs) = false := by
          simp only [survives]
          rw [decide_eq_true hlen]
          simp
        rw [hstep, ih acc, List.filter_cons, hsurv]
        simp
      · by_cases hdur :
          ((c0 :: cs).getLast (List.cons_ne_nil c0 cs)).time + hopSec - c0.time
            < cfg.minNoteSec
        · have hstep : synthStep cfg hopSec ids acc (c0 :: cs) = acc := by
            simp only [synthStep]
            rw [if_neg hlen, if_pos hdur]
          have hsurv : survives cfg hopSec (c0 :: cs) = false := by
            simp only [survives]
            rw [clusterEnd_cons, decide_eq_true hdur]
            simp
          rw [hstep, ih acc, List.filter_cons, hsurv]
          simp
        · have hstep : synthStep cfg hopSec ids acc (c0 :: cs)
              = acc ++ [{ id := ids acc.length
                          startTime := c0.time
                          endTime := ((c0 :: cs).getLast
                            (List.cons_ne_nil c0 cs)).time + hopSec
                          midi := jsRound (median ((c0 :: cs).map VFrame.midi))
                          confidence := max 0 (min 1
                            (mean ((c0 :: cs).map VFrame.confidence))) }] := by
            simp only [synthStep]
            rw [if_neg hlen, if_neg hdur]
          have hsurv : survives cfg hopSec (c0 :: cs) = true := by
            simp only [survives]
            rw [clusterEnd_cons, decide_eq_false hlen, decide_eq_false hdur]
            simp
          rw [hstep, ih, List.filter_cons, hsurv]
          simp only [if_true, List.map_append, List.map_cons]
          rw [List.append_assoc]
          simp [DetectedNote.data, clusterData, clusterStart, clusterEnd_cons]

theorem synthNotes_data (cfg : NoteDetectionConfig) (hopSec : ℚ)
    (ids : ℕ → String) (cls : List (List VFrame)) :
    (synthNotes cfg hopSec ids cls).map DetectedNote.data
      = (cls.filter (survives cfg hopSec)).map (clusterData hopSec) := by
  have h := foldl_synthStep_data cfg hopSec ids cls []
  simpa [synthNotes] using h

theorem synthNotes_length (cfg : NoteDetectionConfig) (hopSec : ℚ)
    (ids : ℕ → String) (cls : List (List VFrame)) :
    (synthNotes cfg hopSec ids cls).length
      = (cls.filter (survives cfg hopSec)).length := by
  have h := congrArg List.length (synthNotes_data cfg hopSec ids cls)
  simpa using h

/-! ## Voiced-frame stage lemmas -/

instance vframeTimeLeTotal : IsTotal VFrame (fun a b => a.time ≤ b.time) :=
  ⟨fun a b => le_total a.time b.time⟩

instance vframeTimeLeTrans : IsTrans VFrame (fun a b => a.time ≤ b.time) :=
  ⟨fun _ _ _ hab hbc => le_trans hab hbc⟩

theorem voicedFrames_sorted (log2 : ℚ → ℚ) (cfg : NoteDetectionConfig)
    (frames : List PitchFrame) :
    (voicedFrames log2 cfg frames).Pairwise (fun a b => a.time ≤ b.time) :=
  List.sorted_insertionSort _ _

theorem voicedFrames_perm (log2 : ℚ → ℚ) (cfg : NoteDetectionConfig)
    (frames : List PitchFrame) :
    (voicedFrames log2 cfg frames).Perm
      ((frames.filter (keepFrame cfg)).map (fun f =>
        { time := f.time
          midi := hzToMidiFloat log2 (frameHz f)
          confidence := f.confidence })) :=
  List.perm_insertionSort _ _

theorem voicedFrames_times_nodup (log2 : ℚ → ℚ) (cfg : NoteDetectionConfig)
    (frames : List PitchFrame)
    (h : (frames.map PitchFrame.time).Nodup) :
    ((voicedFrames log2 cfg frames).map VFrame.time).Nodup := by
  have hperm := (voicedFrames_perm log2 cfg frames).map VFrame.time
  apply hperm.nodup_iff.mpr
  rw [List.map_map]
  have hsub : ((frames.filter (keepFrame cfg)).map
      (VFrame.time ∘ fun f =>
        ({ time := f.time, midi := hzToMidiFloat log2 (frameHz f),
           confidence := f.confidence } : VFrame)))
      = (frames.filter (keepFrame cfg)).map PitchFrame.time := by
    simp [Function.comp]
  rw [hsub]
  exact h.sublist (List.Sublist.map PitchFrame.time (List.filter_sublist frames))

/-! ## ScaleQuantizer lemmas -/

theorem snapMidiToScale_intCast (m : ℤ) (key : Key) :
    snapMidiToScale (.fin (m : ℚ)) key
      = .fin (((if inScale m key then m else (snapSearch m key).getD m) : ℤ) : ℚ) := by
  simp only [snapMidiToScale, jsRound_intCast]
  split_ifs <;> rfl

theorem snapSearch_some (m : ℤ) (key : Key) (r : ℤ)
    (h : snapSearch m key = some r) :
    inScale r key = true ∧ ∃ d : ℤ, 1 ≤ d ∧ d ≤ 6 ∧ (r = m - d ∨ r = m + d) := by
  obtain ⟨d, hd, hfd⟩ := List.exists_of_findSome?_eq_some h
  have hdrange : 1 ≤ d ∧ d ≤ 6 := by
    simp only [List.mem_cons, List.not_mem_nil, or_false] at hd
    rcases hd with rfl | rfl | rfl | rfl | rfl | rfl <;> constructor <;> norm_num
  by_cases hdown : inScale (m - d) key
  · rw [if_pos hdown] at hfd
    obtain rfl := Option.some_injective _ hfd
    exact ⟨hdown, d, hdrange.1, hdrange.2, Or.inl rfl⟩
  · rw [if_neg hdown] at hfd
    by_cases hup : inScale (m + d) key
    · rw [if_pos hup] at hfd
      obtain rfl := Option.some_injective _ hfd
      exact ⟨hup, d, hdrange.1, hdrange.2, Or.inr rfl⟩
    · rw [if_neg hup] at hfd
      exact absurd hfd (by simp)

theorem snapSearch_none (m : ℤ) (key : Key) (h : snapSearch m key = none) :
    ∀ d : ℤ, 1 ≤ d → d ≤ 6 →
      inScale (m - d) key = false ∧ inScale (m + d) key = false := by
  intro d h1 h6
  unfold snapSearch at h
  rw [List.findSome?_eq_none_iff] at h
  have hd := h d (by interval_cases d <;> simp)
  by_cases hdown : inScale (m - d) key
  · rw [if_pos hdown] at hd
    exact absurd hd (by simp)
  · rw [if_neg hdown] at hd
    by_cases hup : inScale (m + d) key
    · rw [if_pos hup] at hd
      exact absurd hd (by simp)
    · exact ⟨Bool.eq_false_iff.mpr hdown, Bool.eq_false_iff.mpr hup⟩

theorem snapSearch_first_match (m : ℤ) (key : Key) (d : ℤ)
    (h1 : 1 ≤ d) (h6 : d ≤ 6)
    (hmin : ∀ e : ℤ, 1 ≤ e → e < d →
      inScale (m - e) key = false ∧ inScale (m + e) key = false) :
    (inScale (m - d) key = true → snapSearch m key = some (m - d)) ∧
      (inScale (m - d) key = false → inScale (m + d) key = true →
        snapSearch m key = some (m + d)) := by
  interval_cases d <;>
    exact ⟨fun hdown => by simp [snapSearch, List.findSome?, hdown, hmin],
           fun hdown hup => by simp [snapSearch, List.findSome?, hdown, hup, hmin]⟩

/-! ## Pipeline-level helpers -/

theorem head_time_le_getLast_time (c0 : VFrame) (cs : List VFrame)
    (h : (c0 :: cs).Pairwise (fun a b => a.time ≤ b.time)) :
    c0.time ≤ ((c0 :: cs).getLast (List.cons_ne_nil c0 cs)).time := by
  cases cs with
  | nil => simp [List.getLast]
  | cons c1 cs =>
    have hmem : (c0 :: c1 :: cs).getLast (List.cons_ne_nil c0 (c1 :: cs)) ∈ c1 :: cs := by
      rw [List.getLast_cons (List.cons_ne_nil c1 cs)]
      exact List.getLast_mem (List.cons_ne_nil c1 cs)
    exact (List.pairwise_cons.mp h).1 _ hmem

theorem clusterStart_mem (cl : List VFrame) (h : cl ≠ []) :
    ∃ x ∈ cl, clusterStart cl = x.time := by
  cases cl with
  | nil => exact absurd rfl h
  | cons c0 cs => exact ⟨c0, List.mem_cons_self c0 cs, by simp [clusterStart]⟩

theorem mem_detect_exists_cluster (log2 : ℚ → ℚ) (cfg : NoteDetectionConfig)
    (frames : List PitchFrame) (ids : ℕ → String) (n : DetectedNote)
    (hn : n ∈ detectWithConfig log2 cfg frames ids) :
    ∃ cl ∈ (buildClusters cfg (voicedFrames log2 cfg frames)).filter
        (survives cfg (inferHopSec ((voicedFrames log2 cfg frames).map VFrame.time))),
      clusterData (inferHopSec ((voicedFrames log2 cfg frames).map VFrame.time)) cl
        = n.data := by
  by_cases he : (voicedFrames log2 cfg frames).isEmpty
  · exfalso
    revert hn
    simp [detectWithConfig, he]
  · have hn2 : n ∈ synthNotes cfg
        (inferHopSec ((voicedFrames log2 cfg frames).map VFrame.time)) ids
        (buildClusters cfg (voicedFrames log2 cfg frames)) := by
      simpa [detectWithConfig, he] using hn
    have hd : n.data ∈ (synthNotes cfg
        (inferHopSec ((voicedFrames log2 cfg frames).map VFrame.time)) ids
        (buildClusters cfg (voicedFrames log2 cfg frames))).map DetectedNote.data :=
      List.mem_map_of_mem DetectedNote.data hn2
    rw [synthNotes_data] at hd
    obtain ⟨cl, hcl, hdat⟩ := List.mem_map.mp hd
    exact ⟨cl, hcl, hdat⟩

theorem survives_mono (cfg : NoteDetectionConfig) (hopSec : ℚ) (mf ms : ℚ)
    (hmf : cfg.minFramesPerNote ≤ mf) (hms : cfg.minNoteSec ≤ ms)
    (cl : List VFrame)
    (h : survives { cfg with minFramesPerNote := mf, minNoteSec := ms } hopSec cl
      = true) :
    survives cfg hopSec cl = true := by
  cases cl with
  | nil => simp [survives] at h
  | cons c0 cs =>
    simp only [survives, Bool.and_eq_true, Bool.not_eq_true',
      decide_eq_false_iff_not] at h ⊢
    obtain ⟨h1, h2⟩ := h
    constructor
    · intro hc
      exact h1 (lt_of_lt_of_le hc hmf)
    · intro hc
      exact h2 (lt_of_lt_of_le hc hms)

theorem voicedFrames_config_eq (log2 : ℚ → ℚ) (cfg : NoteDetectionConfig)
    (mf ms : ℚ) (frames : List PitchFrame) :
    voicedFrames log2 { cfg with minFramesPerNote := mf, minNoteSec := ms } frames
      = voicedFrames log2 cfg frames := rfl

theorem buildClusters_config_eq (cfg : NoteDetectionConfig) (mf ms : ℚ)
    (voiced : List VFrame) :
    buildClusters { cfg with minFramesPerNote := mf, minNoteSec := ms } voiced
      = buildClusters cfg voiced := rfl

theorem detect_length_mono (log2 : ℚ → ℚ) (frames : List PitchFrame)
    (ids : ℕ → String) (cfg : NoteDetectionConfig) (mf ms : ℚ)
    (hmf : cfg.minFramesPerNote ≤ mf) (hms : cfg.minNoteSec ≤ ms) :
    (detectWithConfig log2 { cfg with minFramesPerNote := mf, minNoteSec := ms }
        frames ids).length
      ≤ (detectWithConfig log2 cfg frames ids).length := by
  simp only [detectWithConfig, voicedFrames_config_eq, buildClusters_config_eq]
  by_cases he : (voicedFrames log2 cfg frames).isEmpty
  · simp [he]
  · simp only [he, Bool.false_eq_true, if_false]
    rw [synthNotes_length, synthNotes_length,
      ← List.countP_eq_length_filter, ← List.countP_eq_length_filter]
    exact List.countP_mono_left
      (fun cl _ h => survives_mono cfg _ mf ms hmf hms cl h)

theorem detect_startTimes (log2 : ℚ → ℚ) (cfg : NoteDetectionConfig)
    (frames : List PitchFrame) (ids : ℕ → String) :
    (detectWithConfig log2 cfg frames ids).map DetectedNote.startTime
      = ((buildClusters cfg (voicedFrames log2 cfg frames)).filter
          (survives cfg
            (inferHopSec ((voicedFrames log2 cfg frames).map VFrame.time)))).map
          clusterStart := by
  by_cases he : (voicedFrames log2 cfg frames).isEmpty
  · have hv : voicedFrames log2 cfg frames = [] := List.isEmpty_iff.mp he
    simp [detectWithConfig, he, hv, buildClusters]
  · have hne : detectWithConfig log2 cfg frames ids
        = synthNotes cfg
            (inferHopSec ((voicedFrames log2 cfg frames).map VFrame.time)) ids
            (buildClusters cfg (voicedFrames log2 cfg frames)) := by
      simp [detectWithConfig, he]
    rw [hne]
    have h1 : (synthNotes cfg
        (inferHopSec ((voicedFrames log2 cfg frames).map VFrame.time)) ids
        (buildClusters cfg (voicedFrames log2 cfg frames))).map
          (Prod.fst ∘ DetectedNote.data)
        = ((buildClusters cfg (voicedFrames log2 cfg frames)).filter
            (survives cfg
              (inferHopSec ((voicedFrames log2 cfg frames).map VFrame.time)))).map
            (Prod.fst ∘ clusterData
              (inferHopSec ((voicedFrames log2 cfg frames).map VFrame.time))) := by
      rw [← List.map_map, ← List.map_map, synthNotes_data]
    exact h1

theorem detect_startTimes_pairwise (log2 : ℚ → ℚ) (cfg : NoteDetectionConfig)
    (frames : List PitchFrame) (ids : ℕ → String) {S : ℚ → ℚ → Prop}
    (hS : (voicedFrames log2 cfg frames).Pairwise (fun a b => S a.time b.time)) :
    List.Pairwise S
      ((detectWithConfig log2 cfg frames ids).map DetectedNote.startTime) := by
  rw [detect_startTimes, List.pairwise_map]
  have hbetween := (buildClusters_pairwise cfg (voicedFrames log2 cfg frames) hS).2
  have hp : List.Pairwise (fun c d => ∀ x ∈ c, ∀ y ∈ d, S x.time y.time)
      ((buildClusters cfg (voicedFrames log2 cfg frames)).filter
        (survives cfg
          (inferHopSec ((voicedFrames log2 cfg frames).map VFrame.time)))) :=
    List.Pairwise.sublist (List.filter_sublist _) hbetween
  refine List.Pairwise.imp_of_mem ?_ hp
  intro a b ha hb hab
  obtain ⟨x, hx, hxs⟩ := clusterStart_mem a
    (buildClusters_ne_nil cfg _ a (List.mem_of_mem_filter ha))
  obtain ⟨y, hy, hys⟩ := clusterStart_mem b
    (buildClusters_ne_nil cfg _ b (List.mem_of_mem_filter hb))
  rw [hxs, hys]
  exact hab x hx y hy

/-! ## Claim theorems: ScaleQuantizer -/

/-- C7: for every integer pitch `m` and key, if `m`'s pitch class is in the
key's scale-degree set, `snapMidiToScale` returns `m` unchanged; otherwise it
searches radii `d = 1..6`, at each radius testing the tone `d` below before
the tone `d` above, and returns the first match found (preferring downward
displacement at the smallest radius); in particular pitch 61 with key C major
returns 60. -/
theorem C7_snapMidiToScale_first_match :
    (∀ (m : ℤ) (key : Key), inScale m key = true →
        snapMidiToScale (.fin (m : ℚ)) key = .fin ((m : ℤ) : ℚ))
    ∧ (∀ (m : ℤ) (key : Key) (d : ℤ), 1 ≤ d → d ≤ 6 → inScale m key = false →
        (∀ e : ℤ, 1 ≤ e → e < d →
          inScale (m - e) key = false ∧ inScale (m + e) key = false) →
        ((inScale (m - d) key = true →
            snapMidiToScale (.fin (m : ℚ)) key = .fin ((m - d : ℤ) : ℚ))
          ∧ (inScale (m - d) key = false → inScale (m + d) key = true →
              snapMidiToScale (.fin (m : ℚ)) key = .fin ((m + d : ℤ) : ℚ))))
    ∧ snapMidiToScale (.fin 61) (makeKey 0 .major 60) = .fin 60 := by
  refine ⟨?_, ?_, by decide⟩
  · intro m key h
    rw [snapMidiToScale_intCast, if_pos h]
  · intro m key d h1 h6 hnot hmin
    have hsnap : snapMidiToScale (.fin (m : ℚ)) key
        = .fin (((snapSearch m key).getD m : ℤ) : ℚ) := by
      rw [snapMidiToScale_intCast, if_neg (by simp [hnot])]
    obtain ⟨hdown, hup⟩ := snapSearch_first_match m key d h1 h6 hmin
    constructor
    · intro hd
      rw [hsnap, hdown hd]
      rfl
    · intro hd hu
      rw [hsnap, hup hd hu]
      rfl

/-- Witness for C7 at the concrete input of the claim: pitch 61 in C major is
out of scale, 60 is in scale, and the theorem's radius-1 downward branch
yields 60. -/
theorem C7_witness :
    inScale 61 (makeKey 0 .major 60) = false
    ∧ inScale (61 - 1) (makeKey 0 .major 60) = true
    ∧ snapMidiToScale (.fin ((61 : ℤ) : ℚ)) (makeKey 0 .major 60)
        = .fin ((61 - 1 : ℤ) : ℚ) :=
  ⟨by decide, by decide,
    (C7_snapMidiToScale_first_match.2.1 61 (makeKey 0 .major 60) 1 (by decide)
      (by decide) (by decide)
      (fun e he1 helt => absurd (lt_of_le_of_lt he1 helt) (lt_irrefl 1))).1
      (by decide)⟩

/-- C8: for every integer pitch and key, the snapped result either has a
pitch class inside the key's scale degrees and differs from the input by at
most 6 semitones, or (when no scale tone exists within the 6-semitone
radius) equals the original pitch; and a pitch already in scale snaps to
itself. -/
theorem C8_snapMidiToScale_invariant (m : ℤ) (key : Key) :
    ((∃ d ∈ Finset.Icc (-6 : ℤ) 6, inScale (m + d) key = true) →
        ∃ r : ℤ, snapMidiToScale (.fin (m : ℚ)) key = .fin (r : ℚ)
          ∧ inScale r key = true ∧ |r - m| ≤ 6)
    ∧ ((∀ d ∈ Finset.Icc (-6 : ℤ) 6, inScale (m + d) key = false) →
        snapMidiToScale (.fin (m : ℚ)) key = .fin (m : ℚ))
    ∧ (inScale m key = true →
        snapMidiToScale (.fin (m : ℚ)) key = .fin (m : ℚ)) := by
  by_cases hin : inScale m key = true
  · have hsnap : snapMidiToScale (.fin (m : ℚ)) key = .fin (m : ℚ) := by
      rw [snapMidiToScale_intCast, if_pos hin]
    exact ⟨fun _ => ⟨m, hsnap, hin, by simp⟩, fun _ => hsnap, fun _ => hsnap⟩
  · have hsnap : snapMidiToScale (.fin (m : ℚ)) key
        = .fin (((snapSearch m key).getD m : ℤ) : ℚ) := by
      rw [snapMidiToScale_intCast, if_neg hin]
    cases hs : snapSearch m key with
    | some r =>
      obtain ⟨hr, d, hd1, hd6, hrd⟩ := snapSearch_some m key r hs
      refine ⟨fun _ => ⟨r, by rw [hsnap, hs]; rfl, hr, ?_⟩, fun hall => ?_,
        fun h => absurd h hin⟩
      · rcases hrd with rfl | rfl <;> (rw [abs_le]; omega)
      · exfalso
        have hmem : (r - m) ∈ Finset.Icc (-6 : ℤ) 6 := by
          rw [Finset.mem_Icc]
          rcases hrd with rfl | rfl <;> omega
        have hfalse := hall (r - m) hmem
        rw [show m + (r - m) = r by ring] at hfalse
        rw [hfalse] at hr
        exact Bool.false_ne_true hr
    | none =>
      have hnone := snapSearch_none m key hs
      refine ⟨fun hex => ?_, fun _ => by rw [hsnap, hs]; rfl, fun h => absurd h hin⟩
      exfalso
      obtain ⟨d, hdmem, hdin⟩ := hex
      rw [Finset.mem_Icc] at hdmem
      rcases lt_trichotomy d 0 with hneg | hzero | hpos
      · have hf := (hnone (-d) (by omega) (by omega)).1
        rw [show m - -d = m + d by ring] at hf
        rw [hf] at hdin
        exact Bool.false_ne_true hdin
      · subst hzero
        rw [add_zero] at hdin
        exact hin hdin
      · have hf := (hnone d (by omega) (by omega)).2
        rw [hf] at hdin
        exact Bool.false_ne_true hdin

/-- Witness for C8 at pitch 61 in C major: a scale tone exists within the
radius and the snapped result is in scale within 6 semitones. -/
theorem C8_witness :
    (∃ d ∈ Finset.Icc (-6 : ℤ) 6, inScale (61 + d) (makeKey 0 .major 60) = true)
    ∧ ∃ r : ℤ, snapMidiToScale (.fin ((61 : ℤ) : ℚ)) (makeKey 0 .major 60)
        = .fin (r : ℚ)
      ∧ inScale r (makeKey 0 .major 60) = true ∧ |r - 61| ≤ 6 :=
  ⟨by decide, (C8_snapMidiToScale_invariant 61 (makeKey 0 .major 60)).1 (by decide)⟩

/-- C10: `snapMidiToScale` returns non-finite inputs (`NaN`, `±Infinity`)
unchanged; on finite input it rounds (JS `Math.round`) before any
scale-membership test, so snapping `q` equals snapping `round q` and the
result is always an integer. -/
theorem C10_snapMidiToScale_nonfinite_and_round (key : Key) (q : ℚ) :
    snapMidiToScale .nan key = .nan
    ∧ snapMidiToScale .posInf key = .posInf
    ∧ snapMidiToScale .negInf key = .negInf
    ∧ snapMidiToScale (.fin q) key
        = snapMidiToScale (.fin ((jsRound q : ℤ) : ℚ)) key
    ∧ ∃ r : ℤ, snapMidiToScale (.fin q) key = .fin (r : ℚ) := by
  refine ⟨rfl, rfl, rfl, ?_, ?_⟩
  · simp only [snapMidiToScale, jsRound_intCast]
  · simp only [snapMidiToScale]
    split_ifs with h
    · exact ⟨jsRound q, rfl⟩
    · exact ⟨(snapSearch (jsRound q) key).getD (jsRound q), rfl⟩

/-! ## Claim theorems: clustering, hop inference, determinism, configuration -/

/-- C5: the clustering stage is exactly the single deterministic left-to-right
pass of specification §4.2 (gap/jump close the cluster, tentative append is
rejected when the sample standard deviation of the tentative cluster exceeds
the threshold, open cluster closed at end of input); the spread comparison is
the real statement `√(sample variance) > maxStdDevSemitones`, and the sample
variance uses the `n − 1` divisor and is `0` for clusters of at most one
member. -/
theorem C5_clusterer_matches_spec :
    (∀ (cfg : NoteDetectionConfig) (voiced : List VFrame),
        buildClusters cfg voiced = specClusterize cfg [] voiced)
    ∧ (∀ (values : List ℚ) (c : ℚ),
        stddevGT values c = true
          ↔ (c : ℝ) < Real.sqrt ((stddevSq values : ℚ) : ℝ))
    ∧ (∀ values : List ℚ, values.length ≤ 1 → stddevSq values = 0)
    ∧ (∀ values : List ℚ, 2 ≤ values.length →
        stddevSq values * ((values.length : ℚ) - 1)
          = (values.map (fun x => (x - mean values) * (x - mean values))).sum) := by
  refine ⟨buildClusters_eq_spec, stddevGT_iff_sqrt, ?_, ?_⟩
  · intro v hv
    simp [stddevSq, hv]
  · intro v hv
    have hlen : ¬ v.length ≤ 1 := by omega
    have hpos : (0 : ℚ) < (v.length : ℚ) - 1 := by
      have h2 : (2 : ℚ) ≤ (v.length : ℚ) := by exact_mod_cast hv
      linarith
    simp only [stddevSq, hlen, if_false]
    rw [div_mul_cancel₀ _ (ne_of_gt hpos)]

/-- Witness for C5's conditional conjuncts: a singleton cluster has zero
variance, and on a two-element list the `n − 1` divisor identity holds. -/
theorem C5_witness :
    (([(69 : ℚ)].length ≤ 1) ∧ stddevSq [(69 : ℚ)] = 0)
    ∧ (2 ≤ [(69 : ℚ), 70].length
        ∧ stddevSq [(69 : ℚ), 70] * ((([(69 : ℚ), 70].length : ℚ)) - 1)
          = ([(69 : ℚ), 70].map (fun x =>
              (x - mean [(69 : ℚ), 70]) * (x - mean [(69 : ℚ), 70]))).sum) :=
  ⟨⟨by decide, C5_clusterer_matches_spec.2.2.1 [69] (by decide)⟩,
   ⟨by decide, C5_clusterer_matches_spec.2.2.2 [69, 70] (by decide)⟩⟩

/-- C4 counterexample: the voiced timestamps 0, 0.02, 0.04 have exactly one
distinct consecutive delta (fewer than 3 distinct deltas), yet the inferred
hop is 0.02, not the default 0.01 the claim requires in that case. -/
theorem C4_cex_distinct_deltas :
    (consecDeltas [0, 1/50, 2/50]).dedup.length < 3
    ∧ inferHopSec [0, 1/50, 2/50] ≠ 1/100 := by decide

/-- C4 (amended): the hop used by note synthesis (added to a cluster's last
frame time to form `endTime`) is the median of the *positive* consecutive
timestamp deltas of the voiced frames; the default 0.01 s applies exactly
when there are at most 2 voiced frames or no positive delta (not "fewer than
3 distinct deltas"). -/
theorem C4_inferHopSec_median_of_positive_deltas :
    (∀ times : List ℚ, 3 ≤ times.length →
        ((consecDeltas times).filter (fun d => 0 < d)) ≠ [] →
        inferHopSec times
          = median ((List.zipWith (fun a b => b - a) times times.tail).filter
              (fun d => 0 < d)))
    ∧ (∀ times : List ℚ, times.length ≤ 2 → inferHopSec times = 1/100)
    ∧ (∀ times : List ℚ,
        ((consecDeltas times).filter (fun d => 0 < d)) = [] →
        inferHopSec times = 1/100)
    ∧ (∀ (log2 : ℚ → ℚ) (cfg : NoteDetectionConfig) (frames : List PitchFrame)
        (ids : ℕ → String) (n : DetectedNote),
        n ∈ detectWithConfig log2 cfg frames ids →
        ∃ cl ∈ buildClusters cfg (voicedFrames log2 cfg frames), cl ≠ []
          ∧ n.startTime = clusterStart cl
          ∧ n.endTime = clusterEnd
              (inferHopSec ((voicedFrames log2 cfg frames).map VFrame.time)) cl) := by
  refine ⟨?_, ?_, ?_, ?_⟩
  · intro times h3 hne
    unfold inferHopSec
    rw [if_neg (by omega)]
    dsimp only
    rw [if_neg (by simpa [List.isEmpty_iff] using hne), consecDeltas_eq_zipWith]
  · intro times h2
    unfold inferHopSec
    rw [if_pos h2]
  · intro times hemp
    unfold inferHopSec
    split
    · rfl
    · dsimp only
      rw [if_pos (by simp [hemp])]
  · intro log2 cfg frames ids n hn
    obtain ⟨cl, hcl, hdat⟩ := mem_detect_exists_cluster log2 cfg frames ids n hn
    have hclmem : cl ∈ buildClusters cfg (voicedFrames log2 cfg frames) :=
      List.mem_of_mem_filter hcl
    refine ⟨cl, hclmem, buildClusters_ne_nil cfg _ cl hclmem, ?_, ?_⟩
    · have h1 := congrArg Prod.fst hdat
      simpa [clusterData, DetectedNote.data] using h1.symm
    · have h2 := congrArg (fun p => p.2.1) hdat
      simpa [clusterData, DetectedNote.data] using h2.symm

/-- Witness for C4's amended clauses at timestamps 0, 0.01, 0.03. -/
theorem C4_witness :
    3 ≤ ([0, 1/100, 3/100] : List ℚ).length
    ∧ ((consecDeltas [0, 1/100, 3/100]).filter (fun d => 0 < d)) ≠ []
    ∧ inferHopSec [0, 1/100, 3/100]
        = median ((List.zipWith (fun a b => b - a) [0, 1/100, 3/100]
            ([0, 1/100, 3/100] : List ℚ).tail).filter (fun d => 0 < d)) :=
  ⟨by decide, by decide,
    C4_inferHopSec_median_of_positive_deltas.1 [0, 1/100, 3/100]
      (by decide) (by decide)⟩

/-- C1 counterexample: the same frames and configuration under two different
ambient identifier generators (two runs of `crypto.randomUUID()`) produce
non-identical `DetectedNote` lists — the `id` fields differ — so the output
is not bit-for-bit identical including `id`. -/
theorem C1_cex_ids_differ :
    detectNotesFromPitch demoLog2 framesA none idsA
      ≠ detectNotesFromPitch demoLog2 framesA none idsB := by decide

/-- C1 (amended): the pipeline is deterministic in every field except the
freshly generated `id`: for any two identifier supplies, the two runs agree
on `startTime`, `endTime`, `midi` and `confidence` of every note, in the
same order (hence also on the number of notes). -/
theorem C1_detect_deterministic_except_id (log2 : ℚ → ℚ)
    (frames : List PitchFrame) (config : Option PartialNoteDetectionConfig)
    (ids1 ids2 : ℕ → String) :
    (detectNotesFromPitch log2 frames config ids1).map DetectedNote.data
      = (detectNotesFromPitch log2 frames config ids2).map DetectedNote.data := by
  simp only [detectNotesFromPitch, detectWithConfig]
  by_cases he : (voicedFrames log2
      (mergeConfig NOTE_DETECTION_DEFAULTS (config.getD emptyPartialConfig))
      frames).isEmpty
  · simp [he]
  · simp only [he, Bool.false_eq_true, if_false]
    rw [synthNotes_data, synthNotes_data]

/-- C9 counterexample: with the out-of-range configuration value
`minNoteSec = -1` (a negative threshold), `detectNotesFromPitch` does not
fail fast with an invalid-configuration error: it runs to completion and
returns an ordinary, non-empty note list. -/
theorem C9_cex_runs_with_negative_threshold :
    pNeg.minNoteSec = some (-1)
    ∧ ((-1 : ℚ) < 0)
    ∧ detectNotesFromPitch demoLog2 framesA (some pNeg) idsA
        = [{ id := "a-0", startTime := 0, endTime := 9/100, midi := 69,
             confidence := 9/10 }] := by decide

/-- C9 (amended): the pipeline performs no construction-time validation: any
partial configuration, including one with a negative threshold, is merged
over the defaults and used as-is, and the run completes normally — a negative
`minNoteSec` simply acts as a weaker duration filter, yielding at least as
many notes as the default threshold. -/
theorem C9_no_construction_validation (log2 : ℚ → ℚ) (frames : List PitchFrame)
    (p : PartialNoteDetectionConfig) (ids : ℕ → String) (q : ℚ) (hq : q < 0) :
    detectNotesFromPitch log2 frames (some p) ids
      = detectWithConfig log2 (mergeConfig NOTE_DETECTION_DEFAULTS p) frames ids
    ∧ (detectWithConfig log2
          { mergeConfig NOTE_DETECTION_DEFAULTS p with minNoteSec := 6/100 }
          frames ids).length
      ≤ (detectWithConfig log2
          { mergeConfig NOTE_DETECTION_DEFAULTS p with minNoteSec := q }
          frames ids).length := by
  constructor
  · rfl
  · have h := detect_length_mono log2 frames ids
      { mergeConfig NOTE_DETECTION_DEFAULTS p with minNoteSec := q }
      (mergeConfig NOTE_DETECTION_DEFAULTS p).minFramesPerNote (6/100)
      (le_refl _) (by linarith)
    exact h

/-- Witness for C9 with the concrete negative threshold −1. -/
theorem C9_witness :
    ((-1 : ℚ) < 0)
    ∧ (detectWithConfig demoLog2
          { mergeConfig NOTE_DETECTION_DEFAULTS pNeg with minNoteSec := 6/100 }
          framesA idsA).length
      ≤ (detectWithConfig demoLog2
          { mergeConfig NOTE_DETECTION_DEFAULTS pNeg with minNoteSec := -1 }
          framesA idsA).length :=
  ⟨by decide,
    (C9_no_construction_validation demoLog2 framesA pNeg idsA (-1) (by decide)).2⟩

/-- C2 counterexample: two frames sharing a timestamp, an octave apart,
under a permissive configuration produce two notes with equal `startTime`,
so `startTime` is not strictly increasing for every input and configuration. -/
theorem C2_cex_equal_startTimes :
    ((detectNotesFromPitch demoLog2 framesC2 (some permissiveConfig) idsA).map
        DetectedNote.startTime) = [0, 0]
    ∧ ¬ List.Pairwise (fun a b => a < b)
        ((detectNotesFromPitch demoLog2 framesC2 (some permissiveConfig) idsA).map
          DetectedNote.startTime) := by decide

/-- C2 (amended): every emitted note satisfies `endTime > startTime`; the
`startTime` sequence is always non-decreasing, and strictly increasing
whenever the input frames have pairwise distinct timestamps. -/
theorem C2_note_time_invariants (log2 : ℚ → ℚ) (frames : List PitchFrame)
    (config : Option PartialNoteDetectionConfig) (ids : ℕ → String) :
    (∀ n ∈ detectNotesFromPitch log2 frames config ids,
        n.startTime < n.endTime)
    ∧ List.Pairwise (fun a b => a ≤ b)
        ((detectNotesFromPitch log2 frames config ids).map
          DetectedNote.startTime)
    ∧ ((frames.map PitchFrame.time).Nodup →
        List.Pairwise (fun a b => a < b)
          ((detectNotesFromPitch log2 frames config ids).map
            DetectedNote.startTime)) := by
  have hdet : detectNotesFromPitch log2 frames config ids
      = detectWithConfig log2
          (mergeConfig NOTE_DETECTION_DEFAULTS (config.getD emptyPartialConfig))
          frames ids := rfl
  set cfg := mergeConfig NOTE_DETECTION_DEFAULTS (config.getD emptyPartialConfig)
    with hcfgdef
  have hsorted := voicedFrames_sorted log2 cfg frames
  refine ⟨?_, ?_, ?_⟩
  · intro n hn
    rw [hdet] at hn
    obtain ⟨cl, hclf, hdat⟩ := mem_detect_exists_cluster log2 cfg frames ids n hn
    have hclmem : cl ∈ buildClusters cfg (voicedFrames log2 cfg frames) :=
      List.mem_of_mem_filter hclf
    have hclpw : cl.Pairwise (fun a b => a.time ≤ b.time) :=
      (buildClusters_pairwise cfg (voicedFrames log2 cfg frames) hsorted).1
        cl hclmem
    have hclne := buildClusters_ne_nil cfg _ cl hclmem
    cases cl with
    | nil => exact absurd rfl hclne
    | cons c0 cs =>
      have hstart : n.startTime = c0.time := by
        have h1 := congrArg Prod.fst hdat
        simpa [clusterData, DetectedNote.data, clusterStart] using h1.symm
      have hend : n.endTime
          = ((c0 :: cs).getLast (List.cons_ne_nil c0 cs)).time
            + inferHopSec ((voicedFrames log2 cfg frames).map VFrame.time) := by
        have h2 := congrArg (fun p => p.2.1) hdat
        simpa [clusterData, DetectedNote.data, clusterEnd_cons] using h2.symm
      have hle := head_time_le_getLast_time c0 cs hclpw
      have hhop := inferHopSec_pos ((voicedFrames log2 cfg frames).map VFrame.time)
      rw [hstart, hend]
      linarith
  · rw [hdet]
    exact detect_startTimes_pairwise log2 cfg frames ids hsorted
  · intro hnd
    rw [hdet]
    have hnodup := voicedFrames_times_nodup log2 cfg frames hnd
    have hneq : (voicedFrames log2 cfg frames).Pairwise
        (fun a b => a.time ≠ b.time) := by
      have : List.Pairwise (fun a b => a ≠ b)
          ((voicedFrames log2 cfg frames).map VFrame.time) := hnodup
      exact List.pairwise_map.mp this
    have hlt : (voicedFrames log2 cfg frames).Pairwise
        (fun a b => a.time < b.time) :=
      (hsorted.and hneq).imp (fun h => lt_of_le_of_ne h.1 h.2)
    exact detect_startTimes_pairwise log2 cfg frames ids hlt

/-- Witness for C2's distinct-timestamp clause on the steady-tone input. -/
theorem C2_witness :
    (framesA.map PitchFrame.time).Nodup
    ∧ List.Pairwise (fun a b => a < b)
        ((detectNotesFromPitch demoLog2 framesA none idsA).map
          DetectedNote.startTime) :=
  ⟨by decide, (C2_note_time_invariants demoLog2 framesA none idsA).2.2 (by decide)⟩

/-- C3 counterexample: raising only `minConfidence` (`minFrameConfidence`)
from its default 0.3 to 0.7, all other configuration fields held fixed,
increases the number of detected notes from 1 to 2: dropping the
low-confidence middle frame opens a time gap that splits one long cluster
into two clusters that both survive the filters. -/
theorem C3_cex_minConfidence_not_monotone :
    mergeConfig NOTE_DETECTION_DEFAULTS pHigh
      = { NOTE_DETECTION_DEFAULTS with minFrameConfidence := 7/10 }
    ∧ NOTE_DETECTION_DEFAULTS.minFrameConfidence < 7/10
    ∧ (detectNotesFromPitch demoLog2 framesC3 none idsA).length
        < (detectNotesFromPitch demoLog2 framesC3 (some pHigh) idsA).length := by
  decide

/-- C3 (amended): the number of notes is monotonically non-increasing as
`minFramesPerNote` or `minNoteSeconds` (`minNoteSec`) is raised with all
other configuration fields held fixed; the corresponding statement for
`minConfidence` is false (see the counterexample). -/
theorem C3_count_antitone_in_count_and_duration (log2 : ℚ → ℚ)
    (frames : List PitchFrame) (ids : ℕ → String)
    (p : PartialNoteDetectionConfig) (mf ms : ℚ)
    (hmf : (mergeConfig NOTE_DETECTION_DEFAULTS p).minFramesPerNote ≤ mf)
    (hms : (mergeConfig NOTE_DETECTION_DEFAULTS p).minNoteSec ≤ ms) :
    (detectNotesFromPitch log2 frames
        (some { p with minFramesPerNote := some mf, minNoteSec := some ms })
        ids).length
      ≤ (detectNotesFromPitch log2 frames (some p) ids).length :=
  detect_length_mono log2 frames ids
    (mergeConfig NOTE_DETECTION_DEFAULTS p) mf ms hmf hms

/-- Witness for C3 raising both thresholds above their defaults. -/
theorem C3_witness :
    (mergeConfig NOTE_DETECTION_DEFAULTS emptyPartialConfig).minFramesPerNote ≤ 4
    ∧ (mergeConfig NOTE_DETECTION_DEFAULTS emptyPartialConfig).minNoteSec ≤ 1/10
    ∧ (detectNotesFromPitch demoLog2 framesA
          (some { emptyPartialConfig with
                  minFramesPerNote := some 4
                  minNoteSec := some (1/10) }) idsA).length
        ≤ (detectNotesFromPitch demoLog2 framesA (some emptyPartialConfig)
            idsA).length :=
  ⟨by decide, by decide,
    C3_count_antitone_in_count_and_duration demoLog2 framesA idsA
      emptyPartialConfig 4 (1/10) (by decide) (by decide)⟩

/-- C6: the frame filter outputs a time-ordered sequence containing exactly
the observations with a present, finite frequency and confidence at least
`minConfidence`, converting each kept frequency to semitones as
`69 + 12·log2(hz/440)`; a non-finite frequency is treated as unvoiced
(dropped) rather than raising a fault, and an empty or entirely-unvoiced
input yields an empty note list. -/
theorem C6_frame_filter :
    (∀ (log2 : ℚ → ℚ) (cfg : NoteDetectionConfig) (frames : List PitchFrame),
        (voicedFrames log2 cfg frames).Pairwise (fun a b => a.time ≤ b.time))
    ∧ (∀ (log2 : ℚ → ℚ) (cfg : NoteDetectionConfig) (frames : List PitchFrame),
        (voicedFrames log2 cfg frames).Perm
          ((frames.filter (fun f =>
              match f.f0 with
              | some (JsNum.fin _) =>
                decide (cfg.minFrameConfidence ≤ f.confidence)
              | _ => false)).map (fun f =>
            { time := f.time
              midi := hzToMidiFloat log2 (frameHz f)
              confidence := f.confidence })))
    ∧ (∀ (log2 : ℚ → ℚ) (hz : ℚ),
        hzToMidiFloat log2 hz = 69 + 12 * log2 (hz / 440))
    ∧ (∀ (log2 : ℚ → ℚ) (config : Option PartialNoteDetectionConfig)
        (ids : ℕ → String), detectNotesFromPitch log2 [] config ids = [])
    ∧ (∀ (log2 : ℚ → ℚ) (frames : List PitchFrame)
        (config : Option PartialNoteDetectionConfig) (ids : ℕ → String),
        (∀ f ∈ frames, (f.f0.map JsNum.isFinite).getD false = false) →
        detectNotesFromPitch log2 frames config ids = []) := by
  refine ⟨voicedFrames_sorted, ?_, fun log2 hz => rfl,
    fun log2 config ids => rfl, ?_⟩
  · intro log2 cfg frames
    have hpred : (fun f : PitchFrame =>
        match f.f0 with
        | some (JsNum.fin _) => decide (cfg.minFrameConfidence ≤ f.confidence)
        | _ => false) = keepFrame cfg := by
      funext f
      cases hf : f.f0 with
      | none => simp [keepFrame, hf]
      | some x => cases x <;> simp [keepFrame, hf, JsNum.isFinite, ge_iff_le]
    rw [hpred]
    exact voicedFrames_perm log2 cfg frames
  · intro log2 frames config ids hall
    have hfilter : frames.filter (keepFrame
        (mergeConfig NOTE_DETECTION_DEFAULTS (config.getD emptyPartialConfig)))
        = [] := by
      rw [List.filter_eq_nil_iff]
      intro f hf
      have hfin := hall f hf
      cases hf0 : f.f0 with
      | none => simp [keepFrame, hf0]
      | some x =>
        rw [hf0] at hfin
        simp only [Option.map_some', Option.getD_some] at hfin
        simp [keepFrame, hf0, hfin]
    simp [detectNotesFromPitch, detectWithConfig, voicedFrames, hfilter]

/-- Witness for C6's unvoiced-input clause: frames carrying only `NaN`,
`null` and `Infinity` frequencies yield the empty note list. -/
theorem C6_witness :
    (∀ f ∈ framesNF, (f.f0.map JsNum.isFinite).getD false = false)
    ∧ detectNotesFromPitch demoLog2 framesNF none idsA = [] :=
  ⟨by decide, C6_frame_filter.2.2.2.2 demoLog2 framesNF none idsA (by decide)⟩

end STune
